import Mathlib

/-!
# eth-balance-monitor

A shallow embedding of `main.go` and `monitor.go`.

Conventions of the embedding:

* a Go `string` is its sequence of bytes, written `List Char` (one `Char` per byte);
* a `*big.Int` is an `Int`;
* a `common.Address` (`[20]byte`) is the list of its bytes;
* the map `map[common.Address]*Account` is an association list with at most one
  entry per key; `NewMonitor` allocates a fresh `Account` for every key, so the
  pointers never alias and the map is modelled by value;
* the Ethereum node is an oracle `Address → Option Int` giving, for one cycle, the
  outcome of `BalanceAt` for each address (`none` is a returned error);
* the order in which `range` walks a Go map is unspecified, so the refresh cycle takes
  the visiting order as an argument;
* an `http.ResponseWriter` is the list of calls made on it, in order;
* log output (zerolog) has no effect on any state modelled here and is left out.
-/

namespace EthBalanceMonitor

/-! ## Library functions used by the program -/

/-- Go `strings.Split(s, sep)` for a one-byte separator: the pieces between the
occurrences of `sep`; there is always at least one piece. -/
def Split (s : List Char) (sep : Char) : List (List Char) :=
  match s with
  | [] => [[]]
  | c :: cs =>
    if c = sep then [] :: Split cs sep
    else
      match Split cs sep with
      | [] => [[c]]
      | t :: ts => (c :: t) :: ts

/-- Strip trailing slashes, the first loop of Go `path.Base`. -/
def stripTrailingSlashes (p : List Char) : List Char :=
  (p.reverse.dropWhile (fun c => c = '/')).reverse

/-- The text after the last slash (all of it when there is none): the
`strings.LastIndex` step of Go `path.Base`. -/
def afterLastSlash (p : List Char) : List Char :=
  (p.reverse.takeWhile (fun c => c ≠ '/')).reverse

/-- Go `path.Base`: the last element of a path. -/
def Base (p : List Char) : List Char :=
  if p = [] then ['.']
  else
    let q := afterLastSlash (stripTrailingSlashes p)
    if q = [] then ['/'] else q

/-- Length in bytes of a `common.Address`. -/
def AddressLength : Nat := 20

/-- A go-ethereum `common.Address`: its bytes, most significant first. -/
structure Address where
  bytes : List Nat
  deriving DecidableEq, Repr

/-- go-ethereum `has0xPrefix`. -/
def has0xPrefix (s : List Char) : Bool :=
  match s with
  | c0 :: c1 :: _ => c0 = '0' && (c1 = 'x' || c1 = 'X')
  | _ => false

/-- go-ethereum `isHexCharacter`. -/
def isHexCharacter (c : Char) : Bool :=
  ('0' ≤ c && c ≤ '9') || ('a' ≤ c && c ≤ 'f') || ('A' ≤ c && c ≤ 'F')

/-- go-ethereum `isHex`: even length and only hex characters. -/
def isHex (s : List Char) : Bool :=
  if s.length % 2 ≠ 0 then false else s.all isHexCharacter

/-- go-ethereum `common.IsHexAddress`: an optional `0x`/`0X` followed by exactly
forty hex characters. -/
def IsHexAddress (s : List Char) : Bool :=
  let s := if has0xPrefix s then s.drop 2 else s
  s.length == 2 * AddressLength && isHex s

/-- Value of a hex character, as in Go `encoding/hex`; `none` for any other byte. -/
def fromHexChar (c : Char) : Option Nat :=
  if '0' ≤ c ∧ c ≤ '9' then some (c.toNat - '0'.toNat)
  else if 'a' ≤ c ∧ c ≤ 'f' then some (c.toNat - 'a'.toNat + 10)
  else if 'A' ≤ c ∧ c ≤ 'F' then some (c.toNat - 'A'.toNat + 10)
  else none

/-- go-ethereum `Hex2Bytes`: Go `hex.DecodeString` with the error dropped, which
leaves the bytes decoded before the first invalid pair. -/
def Hex2Bytes (s : List Char) : List Nat :=
  match s with
  | p :: q :: rest =>
    match fromHexChar p, fromHexChar q with
    | some a, some b => (a * 16 + b) :: Hex2Bytes rest
    | _, _ => []
  | _ => []

/-- go-ethereum `common.FromHex`: drop an optional `0x`, pad to even length with a
leading `0`, decode. -/
def FromHex (s : List Char) : List Nat :=
  let s := if has0xPrefix s then s.drop 2 else s
  let s := if s.length % 2 = 1 then '0' :: s else s
  Hex2Bytes s

/-- go-ethereum `common.BytesToAddress` (`Address.SetBytes`): longer input is cropped
from the left, shorter input is right-aligned over zero bytes. -/
def BytesToAddress (b : List Nat) : Address :=
  let b := if b.length > AddressLength then b.drop (b.length - AddressLength) else b
  ⟨List.replicate (AddressLength - b.length) 0 ++ b⟩

/-- go-ethereum `common.HexToAddress`. It never fails: any string gives an address. -/
def HexToAddress (s : List Char) : Address :=
  BytesToAddress (FromHex s)

/-- Go `scanSign` of `math/big`: consume one optional sign; fails on empty input. -/
def scanSign (s : List Char) : Option (Bool × List Char) :=
  match s with
  | [] => none
  | c :: cs =>
    if c = '-' then some (true, cs)
    else if c = '+' then some (false, cs)
    else some (false, c :: cs)

/-- The digit loop of Go `nat.scan` in base 10: accumulate leading decimal digits,
returning the value, the number of digits read and the unread rest. -/
def natScan (acc count : Nat) (s : List Char) : Nat × Nat × List Char :=
  match s with
  | [] => (acc, count, [])
  | c :: cs =>
    if '0' ≤ c ∧ c ≤ '9' then natScan (acc * 10 + (c.toNat - '0'.toNat)) (count + 1) cs
    else (acc, count, c :: cs)

/-- Go `new(big.Int).SetString(s, 10)`: an optional sign, then at least one decimal
digit, and nothing else; `none` stands for `ok == false`. -/
def SetString (s : List Char) : Option Int :=
  match scanSign s with
  | none => none
  | some (neg, rest) =>
    match natScan 0 0 rest with
    | (abs, count, unread) =>
      if count = 0 then none
      else if unread ≠ [] then none
      else some (if neg then -(abs : Int) else (abs : Int))

/-- Go `(*big.Int).String()`: the base-10 text, with a leading `-` when negative. -/
def bigString (x : Int) : List Char :=
  match x with
  | Int.ofNat n => Nat.toDigits 10 n
  | Int.negSucc n => '-' :: Nat.toDigits 10 (n + 1)

/-- Go `(*big.Int).Cmp`: `-1`, `0` or `1`. -/
def Cmp (x y : Int) : Int :=
  if x < y then -1 else if x = y then 0 else 1

/-! ## Data model (`monitor.go`, `main.go`) -/

/-- The `Account` struct of `monitor.go`. -/
structure Account where
  balance : Int
  minimumBalance : Int
  healthy : Bool
  deriving DecidableEq, Repr

/-- The map `map[common.Address]*Account`, one entry per key. -/
abbrev Accts := List (Address × Account)

/-- Map read `info, ok := accts[a]`; `none` stands for `ok == false`. -/
def Accts.get (m : Accts) (a : Address) : Option Account :=
  match m with
  | [] => none
  | (k, v) :: rest => if k = a then some v else Accts.get rest a

/-- Map write `accts[a] = v`: replace the entry of `a`, or add one. -/
def Accts.put (m : Accts) (a : Address) (v : Account) : Accts :=
  match m with
  | [] => [(a, v)]
  | (k, w) :: rest => if k = a then (k, v) :: rest else (k, w) :: Accts.put rest a v

/-- The keys of the map, in storage order. -/
def Accts.keys (m : Accts) : List Address :=
  m.map Prod.fst

/-- The `Monitor` struct of `monitor.go`, without the RPC client handle and the lock. -/
structure Monitor where
  ethUrl : List Char
  updateInterval : Int
  httpPort : Nat
  accts : Accts
  deriving DecidableEq, Repr

/-- The outcome of `BalanceAt` for each address during one cycle; `none` is an error. -/
abbrev Oracle := Address → Option Int

/-- The `accountList` struct of `main.go`. -/
structure accountList where
  addrs : List Address
  minimums : List Int
  deriving DecidableEq, Repr

/-- How a call of `accountList.Set` ends: it returns `nil`, it returns an error with
the given text, or it stops with the Go run-time error
`index out of range [idx] with length len`. -/
inductive SetOutcome where
  | returnsNil
  | returnsError (msg : List Char)
  | indexOutOfRange (idx len : Nat)
  deriving DecidableEq, Repr

/-- One call on the `http.ResponseWriter`. -/
inductive Call where
  | WriteHeader (code : Nat)
  | WriteString (text : List Char)
  deriving DecidableEq, Repr

/-! ## Operations -/

/-- The loop of `NewMonitor` from index `i` on: `accts[a] = &Account{0, minimums[i], true}`.
`none` is the run-time error of `minimums[i]` with `i` out of range. -/
def newAccts (minimums : List Int) (i : Nat) (accts : Accts) (accounts : List Address) :
    Option Accts :=
  match accounts with
  | [] => some accts
  | a :: rest =>
    match minimums[i]? with
    | none => none
    | some m =>
      newAccts minimums (i + 1)
        (accts.put a { balance := 0, minimumBalance := m, healthy := true }) rest

/-- `NewMonitor` of `monitor.go`. `time.Second` is taken as 10^9 nanoseconds and the
conversions `time.Duration(updateInterval)` and `uint32(port)` wrap as in Go. -/
def NewMonitor (url : List Char) (port : Nat) (accounts : List Address) (minimums : List Int)
    (updateInterval : Int) : Option Monitor :=
  match newAccts minimums 0 [] accounts with
  | none => none
  | some accts =>
    some { ethUrl := url
           updateInterval := ((1000000000 * updateInterval + 2 ^ 63) % 2 ^ 64) - 2 ^ 63
           httpPort := port % 2 ^ 32
           accts := accts }

/-- The body of the loop of `updateBalances` after a successful fetch of `bal`:
`bal.Cmp(acct.minimumBalance) < 1` marks the account unhealthy, otherwise healthy;
the balance is stored in both branches. -/
def updateAccount (acct : Account) (bal : Int) : Account :=
  if Cmp bal acct.minimumBalance < 1 then
    { acct with healthy := false, balance := bal }
  else
    { acct with healthy := true, balance := bal }

/-- One iteration of the loop of `updateBalances`, for the key `addr`: fetch, on error
`continue`, otherwise update the account behind the pointer. -/
def visit (oracle : Oracle) (accts : Accts) (addr : Address) : Accts :=
  match accts.get addr with
  | none => accts
  | some acct =>
    match oracle addr with
    | none => accts
    | some bal => accts.put addr (updateAccount acct bal)

/-- `updateBalances` of `monitor.go`: one refresh cycle, visiting the keys in `order`
(Go leaves the order of `range` over a map unspecified; `order` is a permutation
of the keys). -/
def updateBalances (oracle : Oracle) (order : List Address) (app : Monitor) : Monitor :=
  { app with accts := order.foldl (visit oracle) app.accts }

/-- The cycles of `Run`, one after the other: each is an oracle with a visiting order. -/
def runCycles (cycles : List (Oracle × List Address)) (app : Monitor) : Monitor :=
  cycles.foldl (fun st c => updateBalances c.1 c.2 st) app

/-- `handleBalanceRequest` of `monitor.go`, given the text of `r.URL.String()`; the result
is the list of calls made on the response writer. There is no `return` after the
404 branch, so the lookup below runs in every case. -/
def handleBalanceRequest (app : Monitor) (url : List Char) : List Call :=
  let base := Base url
  let w : List Call :=
    if !IsHexAddress base then
      [Call.WriteHeader 404, Call.WriteString "invalid address".toList]
    else []
  let addr := HexToAddress base
  match app.accts.get addr with
  | some info =>
    w ++ [Call.WriteHeader (if info.healthy then 200 else 500),
          Call.WriteString (bigString info.balance)]
  | none => w

/-- The status code `net/http` sends for a list of calls: the first `WriteHeader` wins,
a write before any `WriteHeader` implies 200, and `none` when nothing was called. -/
def statusOf (calls : List Call) : Option Nat :=
  match calls with
  | [] => none
  | Call.WriteHeader code :: _ => some code
  | Call.WriteString _ :: _ => some 200

/-- The response body for a list of calls: all written text, in order. -/
def bodyOf (calls : List Call) : List Char :=
  match calls with
  | [] => []
  | Call.WriteHeader _ :: rest => bodyOf rest
  | Call.WriteString text :: rest => text ++ bodyOf rest

/-- The loop of `accountList.Set` over the comma-separated entries. The list is
extended entry by entry, so entries before a failing one stay appended. -/
def setEntries (al : accountList) (list : List (List Char)) : accountList × SetOutcome :=
  match list with
  | [] => (al, SetOutcome.returnsNil)
  | acct :: rest =>
    let tokens := Split acct ':'
    match tokens[0]? with
    | none => (al, SetOutcome.indexOutOfRange 0 tokens.length)
    | some t0 =>
      if !IsHexAddress t0 then
        (al, SetOutcome.returnsError ("invalid address: ".toList ++ t0))
      else
        match tokens[1]? with
        | none => (al, SetOutcome.indexOutOfRange 1 tokens.length)
        | some t1 =>
          match SetString t1 with
          | none => (al, SetOutcome.returnsError ("invalid minimum balance: ".toList ++ t1))
          | some min =>
            setEntries
              { addrs := al.addrs ++ [HexToAddress t0], minimums := al.minimums ++ [min] }
              rest

/-- `accountList.Set` of `main.go`: the list after the call and how the call ended. -/
def accountList.Set (al : accountList) (value : List Char) : accountList × SetOutcome :=
  setEntries al (Split value ',')

/-! ## Specification-side definitions -/

/-- What one cycle with oracle `oracle` does to the account stored under `addr`. -/
def refresh (oracle : Oracle) (addr : Address) (acct : Account) : Account :=
  match oracle addr with
  | none => acct
  | some bal => updateAccount acct bal

/-- The health rule: the flag says whether the balance is strictly above the minimum. -/
def Consistent (acct : Account) : Prop :=
  acct.healthy = decide (acct.balance > acct.minimumBalance)

/-- The base-10 reading of a token: an optional sign followed by at least one decimal
digit, nothing else, with `v` the signed value of the digit string. -/
def DecimalValue (tok : List Char) (v : Int) : Prop :=
  ∃ sign digits, tok = sign ++ digits ∧
    (sign = [] ∨ sign = ['+'] ∨ sign = ['-']) ∧
    digits ≠ [] ∧
    (∀ c ∈ digits, '0' ≤ c ∧ c ≤ '9') ∧
    v = (if sign = ['-'] then -1 else 1) *
      Int.ofNat (Nat.ofDigits 10 (digits.reverse.map (fun c => c.toNat - '0'.toNat)))

/-! ## Sample data -/

/-- The address `0x00…01`. -/
def addrOne : Address := HexToAddress "0x0000000000000000000000000000000000000001".toList

/-- The address `0x00…02`. -/
def addrTwo : Address := HexToAddress "0x0000000000000000000000000000000000000002".toList

/-- A monitor tracking `addrOne` with minimum 100 and `addrTwo` with minimum 5, both in
the state `NewMonitor` gives them. -/
def sampleApp : Monitor :=
  { ethUrl := "http://localhost:8545".toList
    updateInterval := 60000000000
    httpPort := 8080
    accts := [(addrOne, { balance := 0, minimumBalance := 100, healthy := true }),
              (addrTwo, { balance := 0, minimumBalance := 5, healthy := true })] }

/-- An oracle that answers 100 for `addrOne` and fails for every other address. -/
def sampleOracle : Oracle :=
  fun a => if a = addrOne then some 100 else none

/-- An oracle that answers 100 for `addrOne` and 7 for every other address. -/
def sampleOracleAllOk : Oracle :=
  fun a => if a = addrOne then some 100 else some 7

/-! ## Lemmas on the map -/

theorem Accts.get_put (m : Accts) (a b : Address) (v : Account) :
    (m.put a v).get b = if a = b then some v else m.get b := by
  induction m with
  | nil => simp [Accts.put, Accts.get]
  | cons e rest ih =>
    obtain ⟨k, w⟩ := e
    by_cases hk : k = a
    · subst hk
      by_cases hb : k = b <;> simp [Accts.put, Accts.get, hb]
    · by_cases hb : k = b
      · subst hb
        have hne : ¬ a = k := fun h => hk h.symm
        simp [Accts.put, Accts.get, hk, hne]
      · simp [Accts.put, Accts.get, hk, hb, ih]

theorem Accts.keys_put (m : Accts) (a : Address) (v w : Account) (h : m.get a = some w) :
    (m.put a v).keys = m.keys := by
  induction m with
  | nil => simp [Accts.get] at h
  | cons e rest ih =>
    obtain ⟨k, u⟩ := e
    by_cases hk : k = a
    · simp [Accts.put, Accts.keys, hk]
    · simp only [Accts.get, hk, if_false] at h
      have := ih h
      simp only [Accts.keys] at this
      simp [Accts.put, Accts.keys, hk, this]

theorem Accts.get_isSome_iff (m : Accts) (a : Address) :
    (m.get a).isSome = true ↔ a ∈ m.keys := by
  induction m with
  | nil => simp [Accts.get, Accts.keys]
  | cons e rest ih =>
    obtain ⟨k, u⟩ := e
    by_cases hk : k = a
    · simp [Accts.get, Accts.keys, hk]
    · have hne : ¬ a = k := fun h => hk h.symm
      simp only [Accts.keys] at ih
      simp [Accts.get, Accts.keys, hk, hne, ih]

/-! ## Lemmas on the refresh cycle -/

theorem cmp_lt_one (x y : Int) : (Cmp x y < 1) ↔ x ≤ y := by
  unfold Cmp
  split_ifs with h1 h2
  · simp; omega
  · simp; omega
  · simp; omega

theorem updateAccount_eq (acct : Account) (bal : Int) :
    updateAccount acct bal =
      { balance := bal, minimumBalance := acct.minimumBalance,
        healthy := decide (bal > acct.minimumBalance) } := by
  unfold updateAccount
  by_cases h : bal ≤ acct.minimumBalance
  · have hn : ¬ bal > acct.minimumBalance := by omega
    simp [(cmp_lt_one _ _).2 h, hn]
  · have hp : bal > acct.minimumBalance := by omega
    have hc : ¬ Cmp bal acct.minimumBalance < 1 := fun hc => h ((cmp_lt_one _ _).1 hc)
    simp [hc, hp]

theorem refresh_minimum (oracle : Oracle) (addr : Address) (acct : Account) :
    (refresh oracle addr acct).minimumBalance = acct.minimumBalance := by
  unfold refresh
  cases oracle addr <;> simp [updateAccount_eq]

theorem refresh_idem (oracle : Oracle) (addr : Address) (acct : Account) :
    refresh oracle addr (refresh oracle addr acct) = refresh oracle addr acct := by
  unfold refresh
  cases oracle addr <;> simp [updateAccount_eq]

theorem visit_keys (oracle : Oracle) (m : Accts) (x : Address) :
    (visit oracle m x).keys = m.keys := by
  unfold visit
  cases hg : m.get x with
  | none => rfl
  | some acct =>
    cases oracle x with
    | none => rfl
    | some bal => exact Accts.keys_put m x _ acct hg

theorem visit_get (oracle : Oracle) (m : Accts) (x a : Address) :
    (visit oracle m x).get a =
      if x = a then (m.get a).map (refresh oracle a) else m.get a := by
  unfold visit
  by_cases hxa : x = a
  · subst hxa
    cases hg : m.get x with
    | none => simp [hg]
    | some acct =>
      cases ho : oracle x with
      | none => simp [hg, refresh, ho]
      | some bal => simp [Accts.get_put, refresh, ho]
  · cases hg : m.get x with
    | none => simp [hxa]
    | some acct =>
      cases ho : oracle x with
      | none => simp [hxa]
      | some bal => simp [Accts.get_put, hxa]

theorem foldl_visit_keys (oracle : Oracle) (order : List Address) (m : Accts) :
    (order.foldl (visit oracle) m).keys = m.keys := by
  induction order generalizing m with
  | nil => rfl
  | cons x xs ih => simp [List.foldl, ih, visit_keys]

theorem foldl_visit_get (oracle : Oracle) (order : List Address) (m : Accts) (a : Address) :
    (order.foldl (visit oracle) m).get a =
      if a ∈ order then (m.get a).map (refresh oracle a) else m.get a := by
  induction order generalizing m with
  | nil => simp
  | cons x xs ih =>
    simp only [List.foldl, ih, visit_get, List.mem_cons]
    by_cases hxa : x = a
    · subst hxa
      by_cases hm : x ∈ xs
      · cases hg : m.get x <;> simp [hm, refresh_idem]
      · simp [hm]
    · have hne : ¬ a = x := fun h => hxa h.symm
      simp [hxa, hne]

/-- A cycle that visits every key acts on each stored account as `refresh`. -/
theorem updateBalances_get (oracle : Oracle) (order : List Address) (app : Monitor)
    (horder : order.Perm app.accts.keys) (a : Address) :
    (updateBalances oracle order app).accts.get a = (app.accts.get a).map (refresh oracle a) := by
  simp only [updateBalances, foldl_visit_get]
  by_cases hm : a ∈ order
  · simp [hm]
  · have hk : a ∉ app.accts.keys := fun h => hm (horder.mem_iff.2 h)
    have hnone : app.accts.get a = none := by
      cases hg : app.accts.get a with
      | none => rfl
      | some v =>
        exact absurd ((Accts.get_isSome_iff _ _).1 (by simp [hg])) hk
    simp [hm, hnone]

/-! ## Lemmas on `NewMonitor` and on runs of cycles -/

theorem newAccts_spec (minimums : List Int) (accounts : List Address) :
    ∀ (i : Nat) (accts : Accts), i + accounts.length ≤ minimums.length →
      ∃ r, newAccts minimums i accts accounts = some r ∧
        (∀ a, a ∉ accounts → r.get a = accts.get a) ∧
        (∀ k a m, accounts[k]? = some a → minimums[i + k]? = some m →
          (∀ j, k < j → accounts[j]? ≠ some a) →
          r.get a = some { balance := 0, minimumBalance := m, healthy := true }) := by
  induction accounts with
  | nil =>
    intro i accts _
    exact ⟨accts, rfl, fun _ _ => rfl, by simp⟩
  | cons x xs ih =>
    intro i accts hlen
    simp only [List.length_cons] at hlen
    have hi : i < minimums.length := by omega
    obtain ⟨r, hr, hout, hin⟩ :=
      ih (i + 1) (accts.put x { balance := 0, minimumBalance := minimums[i], healthy := true })
        (by omega)
    refine ⟨r, ?_, ?_, ?_⟩
    · simp [newAccts, List.getElem?_eq_getElem hi, hr]
    · intro a ha
      simp only [List.mem_cons, not_or] at ha
      have hne : ¬ x = a := fun h => ha.1 h.symm
      rw [hout a ha.2, Accts.get_put]
      simp [hne]
    · intro k a m hk hm hlast
      cases k with
      | zero =>
        simp only [List.getElem?_cons_zero, Option.some.injEq] at hk
        subst hk
        have hnot : x ∉ xs := by
          intro hmem
          obtain ⟨j, hj⟩ := List.mem_iff_getElem?.1 hmem
          exact hlast (j + 1) (by omega) (by simpa using hj)
        rw [hout x hnot, Accts.get_put]
        simp only [Nat.add_zero, List.getElem?_eq_getElem hi, Option.some.injEq] at hm
        simp [hm]
      | succ k =>
        simp only [List.getElem?_cons_succ] at hk
        apply hin k a m hk
        · rw [← hm]; congr 1; omega
        · intro j hj
          have := hlast (j + 1) (by omega)
          simpa using this

theorem runCycles_keys (cycles : List (Oracle × List Address)) (app : Monitor) :
    (runCycles cycles app).accts.keys = app.accts.keys := by
  induction cycles generalizing app with
  | nil => rfl
  | cons c cs ih =>
    have h := ih (updateBalances c.1 c.2 app)
    simp only [runCycles, List.foldl] at h ⊢
    rw [h]
    exact foldl_visit_keys c.1 c.2 app.accts

theorem runCycles_get (cycles : List (Oracle × List Address)) (app : Monitor)
    (hcycles : ∀ c ∈ cycles, c.2.Perm app.accts.keys) (a : Address) :
    (runCycles cycles app).accts.get a =
      (app.accts.get a).map (fun acct => cycles.foldl (fun v c => refresh c.1 a v) acct) := by
  induction cycles generalizing app with
  | nil => simp [runCycles]
  | cons c cs ih =>
    have hc : c.2.Perm app.accts.keys := hcycles c (List.mem_cons_self _ _)
    have hkeys : (updateBalances c.1 c.2 app).accts.keys = app.accts.keys :=
      foldl_visit_keys c.1 c.2 app.accts
    have h := ih (updateBalances c.1 c.2 app)
      (fun d hd => by rw [hkeys]; exact hcycles d (List.mem_cons_of_mem _ hd))
    simp only [runCycles, List.foldl] at h ⊢
    rw [h, updateBalances_get c.1 c.2 app hc a]
    cases app.accts.get a <;> simp

theorem refresh_consistent (oracle : Oracle) (a : Address) (acct : Account)
    (h : Consistent acct ∨ (oracle a).isSome = true) : Consistent (refresh oracle a acct) := by
  unfold refresh
  cases ho : oracle a with
  | none =>
    rcases h with h | h
    · exact h
    · simp [ho] at h
  | some bal => simp [Consistent, updateAccount_eq]

theorem foldl_refresh_consistent (cycles : List (Oracle × List Address)) (a : Address)
    (acct : Account)
    (h : Consistent acct ∨ ∃ c ∈ cycles, (c.1 a).isSome = true) :
    Consistent (cycles.foldl (fun v c => refresh c.1 a v) acct) := by
  induction cycles generalizing acct with
  | nil =>
    rcases h with h | ⟨c, hc, _⟩
    · exact h
    · simp at hc
  | cons c cs ih =>
    simp only [List.foldl]
    apply ih
    rcases h with h | ⟨d, hd, hsome⟩
    · exact Or.inl (refresh_consistent c.1 a acct (Or.inl h))
    · rcases List.mem_cons.1 hd with hdc | hdcs
      · subst hdc
        exact Or.inl (refresh_consistent d.1 a acct (Or.inr hsome))
      · exact Or.inr ⟨d, hdcs, hsome⟩

theorem foldl_refresh_unchanged (cycles : List (Oracle × List Address)) (a : Address)
    (acct : Account) (h : ∀ c ∈ cycles, c.1 a = none) :
    cycles.foldl (fun v c => refresh c.1 a v) acct = acct := by
  induction cycles generalizing acct with
  | nil => rfl
  | cons c cs ih =>
    simp only [List.foldl]
    have hc : c.1 a = none := h c (List.mem_cons_self _ _)
    have hr : refresh c.1 a acct = acct := by simp [refresh, hc]
    rw [hr]
    exact ih acct (fun d hd => h d (List.mem_cons_of_mem _ hd))

/-- The map built by `NewMonitor`, for lists of equal length. -/
theorem newMonitor_accts (url : List Char) (port : Nat) (accounts : List Address)
    (minimums : List Int) (updateInterval : Int)
    (hlen : accounts.length = minimums.length) :
    ∃ app, NewMonitor url port accounts minimums updateInterval = some app ∧
      (∀ a, (app.accts.get a).isSome = true ↔ a ∈ accounts) ∧
      (∀ a acct, app.accts.get a = some acct → acct.balance = 0 ∧ acct.healthy = true) ∧
      (∀ (k : Nat) a m, accounts[k]? = some a → minimums[k]? = some m →
        (∀ j : Nat, k < j → accounts[j]? ≠ some a) →
        app.accts.get a = some { balance := 0, minimumBalance := m, healthy := true }) := by
  obtain ⟨r, hr, hout, hin⟩ := newAccts_spec minimums accounts 0 [] (by omega)
  have hlast : ∀ a, a ∈ accounts →
      ∃ (k : Nat) (m : Int), accounts[k]? = some a ∧ minimums[k]? = some m ∧
        ∀ j : Nat, k < j → accounts[j]? ≠ some a := by
    intro a ha
    have hex : ∃ k, k < accounts.length ∧ accounts.reverse[k]? = some a := by
      obtain ⟨k, hk⟩ := List.mem_iff_getElem?.1 (List.mem_reverse.2 ha)
      have hlt : k < accounts.reverse.length := by
        by_contra hge
        rw [List.getElem?_eq_none (by omega)] at hk
        simp at hk
      exact ⟨k, by simpa using hlt, hk⟩
    classical
    let k0 := Nat.find hex
    have hk0 : k0 < accounts.length ∧ accounts.reverse[k0]? = some a := Nat.find_spec hex
    have hmin : ∀ j, j < k0 → ¬ (j < accounts.length ∧ accounts.reverse[j]? = some a) :=
      fun j hj => Nat.find_min hex hj
    have hidx : accounts.length - 1 - k0 < minimums.length := by omega
    refine ⟨accounts.length - 1 - k0, minimums[accounts.length - 1 - k0], ?_,
      List.getElem?_eq_getElem hidx, ?_⟩
    · have := hk0.2
      rw [List.getElem?_reverse hk0.1] at this
      exact this
    · intro j hj hja
      have hjlt : j < accounts.length := by
        by_contra hge
        rw [List.getElem?_eq_none (by omega)] at hja
        simp at hja
      apply hmin (accounts.length - 1 - j) (by omega)
      refine ⟨by omega, ?_⟩
      rw [List.getElem?_reverse (by omega)]
      have : accounts.length - 1 - (accounts.length - 1 - j) = j := by omega
      rw [this]
      exact hja
  have hnew : NewMonitor url port accounts minimums updateInterval =
      some { ethUrl := url
             updateInterval := ((1000000000 * updateInterval + 2 ^ 63) % 2 ^ 64) - 2 ^ 63
             httpPort := port % 2 ^ 32
             accts := r } := by
    simp [NewMonitor, hr]
  refine ⟨_, hnew, ?_, ?_, ?_⟩
  · intro a
    constructor
    · intro hsome
      by_contra hna
      rw [hout a hna] at hsome
      simp [Accts.get] at hsome
    · intro ha
      obtain ⟨k, m, hk, hm, hl⟩ := hlast a ha
      rw [hin k a m hk (by simpa using hm) hl]
      rfl
  · intro a acct hget
    by_cases ha : a ∈ accounts
    · obtain ⟨k, m, hk, hm, hl⟩ := hlast a ha
      rw [hin k a m hk (by simpa using hm) hl] at hget
      simp only [Option.some.injEq] at hget
      subst hget
      exact ⟨rfl, rfl⟩
    · rw [hout a ha] at hget
      simp [Accts.get] at hget
  · intro k a m hk hm hl
    exact hin k a m hk (by simpa using hm) hl

/-! ## Lemmas on decimal text -/

theorem natScan_spec (s : List Char) :
    ∀ acc cnt : Nat, ∃ ds : List Char,
      (∀ c ∈ ds, '0' ≤ c ∧ c ≤ '9') ∧
      s = ds ++ (natScan acc cnt s).2.2 ∧
      (natScan acc cnt s).2.1 = cnt + ds.length ∧
      (natScan acc cnt s).1 =
        acc * 10 ^ ds.length + Nat.ofDigits 10 (ds.reverse.map (fun c => c.toNat - '0'.toNat)) := by
  induction s with
  | nil =>
    intro acc cnt
    exact ⟨[], by simp, by simp [natScan], by simp [natScan], by simp [natScan]⟩
  | cons c cs ih =>
    intro acc cnt
    by_cases hc : '0' ≤ c ∧ c ≤ '9'
    · obtain ⟨ds, hds, hsplit, hcnt, hval⟩ := ih (acc * 10 + (c.toNat - '0'.toNat)) (cnt + 1)
      refine ⟨c :: ds, ?_, ?_, ?_, ?_⟩
      · intro d hd
        rcases List.mem_cons.1 hd with h | h
        · rw [h]; exact hc
        · exact hds d h
      · simp only [natScan, hc, and_self, if_true, List.cons_append]
        rw [← hsplit]
      · simp only [natScan, hc, and_self, if_true, List.length_cons]
        rw [hcnt]; omega
      · simp only [natScan, hc, and_self, if_true, List.length_cons, List.reverse_cons,
          List.map_append, List.map_cons, List.map_nil]
        rw [hval, Nat.ofDigits_append, Nat.ofDigits_singleton]
        simp only [List.length_map, List.length_reverse]
        ring
    · exact ⟨[], by simp, by simp [natScan, hc], by simp [natScan, hc], by simp [natScan, hc]⟩

theorem SetString_value (tok : List Char) (v : Int) (h : SetString tok = some v) :
    DecimalValue tok v := by
  unfold SetString at h
  cases hs : scanSign tok with
  | none => simp [hs] at h
  | some p =>
    obtain ⟨neg, rest⟩ := p
    obtain ⟨ds, hds, hsplit, hcnt, hval⟩ := natScan_spec rest 0 0
    simp only [hs] at h
    by_cases h0 : (natScan 0 0 rest).2.1 = 0
    · simp [h0] at h
    · by_cases hun : (natScan 0 0 rest).2.2 = []
      · simp only [h0, if_false, hun, ne_eq, not_true_eq_false, Option.some.injEq] at h
        rw [hun, List.append_nil] at hsplit
        have hne : ds ≠ [] := by
          intro hnil
          rw [hnil] at hcnt
          exact h0 (by simpa using hcnt)
        rw [hval] at h
        simp only [Nat.zero_mul, Nat.zero_add] at h
        cases tok with
        | nil => simp [scanSign] at hs
        | cons c cs =>
          simp only [scanSign] at hs
          split_ifs at hs with hm hp
          · simp only [Option.some.injEq, Prod.mk.injEq] at hs
            obtain ⟨hneg, hrest⟩ := hs
            subst hneg; subst hm
            refine ⟨['-'], ds, by simp [hrest, ← hsplit], by simp, hne, hds, ?_⟩
            rw [← h]; simp
          · simp only [Option.some.injEq, Prod.mk.injEq] at hs
            obtain ⟨hneg, hrest⟩ := hs
            subst hneg; subst hp
            refine ⟨['+'], ds, by simp [hrest, ← hsplit], by simp, hne, hds, ?_⟩
            rw [← h]; simp
          · simp only [Option.some.injEq, Prod.mk.injEq] at hs
            obtain ⟨hneg, hrest⟩ := hs
            subst hneg
            refine ⟨[], ds, by simp [hrest, ← hsplit], by simp, hne, hds, ?_⟩
            rw [← h]; simp
      · simp [h0, hun] at h

theorem natScan_digit (acc cnt : Nat) (c : Char) (r : List Char) (hc : '0' ≤ c ∧ c ≤ '9') :
    natScan acc cnt (c :: r) = natScan (acc * 10 + (c.toNat - '0'.toNat)) (cnt + 1) r := by
  simp only [natScan, hc, and_self, if_true]

theorem digitChar_digit (m : Nat) (hm : m < 10) :
    ('0' ≤ Nat.digitChar m ∧ Nat.digitChar m ≤ '9') ∧
      (Nat.digitChar m).toNat - '0'.toNat = m := by
  interval_cases m <;> decide

theorem toDigitsCore_scan (fuel : Nat) :
    ∀ n : Nat, n < fuel → ∃ l : List Char, l ≠ [] ∧
      (∀ c ∈ l, '0' ≤ c ∧ c ≤ '9') ∧
      (∀ ds, Nat.toDigitsCore 10 fuel n ds = l ++ ds) ∧
      (∀ acc cnt r, natScan acc cnt (l ++ r) =
        natScan (acc * 10 ^ l.length + n) (cnt + l.length) r) := by
  induction fuel with
  | zero => intro n hn; omega
  | succ fuel ih =>
    intro n hn
    have hd := digitChar_digit (n % 10) (Nat.mod_lt _ (by omega))
    by_cases hq : n / 10 = 0
    · refine ⟨[Nat.digitChar (n % 10)], by simp, ?_, ?_, ?_⟩
      · intro c hc
        rw [List.mem_singleton.1 hc]; exact hd.1
      · intro ds
        simp [Nat.toDigitsCore, hq]
      · intro acc cnt r
        have hn10 : n % 10 = n := Nat.mod_eq_of_lt (by omega)
        rw [List.singleton_append, natScan_digit acc cnt _ r hd.1, hd.2, hn10,
          List.length_singleton, pow_one]
    · obtain ⟨l, hne, hdig, hcore, hscan⟩ := ih (n / 10) (by omega)
      refine ⟨l ++ [Nat.digitChar (n % 10)], by simp, ?_, ?_, ?_⟩
      · intro c hc
        rcases List.mem_append.1 hc with h | h
        · exact hdig c h
        · rw [List.mem_singleton.1 h]; exact hd.1
      · intro ds
        simp [Nat.toDigitsCore, hq, hcore]
      · intro acc cnt r
        have hsplit : n = n / 10 * 10 + n % 10 := (Nat.div_add_mod' n 10).symm
        rw [List.append_assoc, hscan, List.singleton_append,
          natScan_digit _ _ _ r hd.1, hd.2, List.length_append, List.length_singleton]
        have e1 : (acc * 10 ^ l.length + n / 10) * 10 + n % 10 =
            acc * 10 ^ (l.length + 1) + n := by
          rw [pow_succ]
          nth_rewrite 3 [hsplit]
          ring
        rw [e1]
        rfl

theorem SetString_toDigits (n : Nat) :
    SetString (Nat.toDigits 10 n) = some (n : Int) ∧
      SetString ('-' :: Nat.toDigits 10 n) = some (-(n : Int)) := by
  obtain ⟨l, hne, hdig, hcore, hscan⟩ := toDigitsCore_scan (n + 1) n (by omega)
  have hl : Nat.toDigits 10 n = l := by
    simp [Nat.toDigits, hcore]
  have hs : natScan 0 0 l = (n, l.length, []) := by
    have := hscan 0 0 []
    simpa [natScan] using this
  have hlen : l.length ≠ 0 := by
    intro h0
    exact hne (List.length_eq_zero.1 h0)
  rw [hl]
  constructor
  · cases l with
    | nil => exact absurd rfl hne
    | cons c cs =>
      have hc := hdig c (List.mem_cons_self _ _)
      have hminus : ¬ c = '-' := by
        intro h; rw [h] at hc; exact absurd hc.1 (by decide)
      have hplus : ¬ c = '+' := by
        intro h; rw [h] at hc; exact absurd hc.1 (by decide)
      simp [SetString, scanSign, hminus, hplus, hs]
  · simp [SetString, scanSign, hs, hlen]

/-- Parsing the text of `String()` with `SetString` gives the number back. -/
theorem SetString_bigString (x : Int) : SetString (bigString x) = some x := by
  cases x with
  | ofNat n => exact (SetString_toDigits n).1
  | negSucc n =>
    have := (SetString_toDigits (n + 1)).2
    simpa [bigString, Int.negSucc_eq] using this

/-! ## Lemmas on `accountList.Set` -/

theorem setEntries_ok (list : List (List Char)) :
    ∀ al al2 : accountList, setEntries al list = (al2, SetOutcome.returnsNil) →
      ∃ toks : List (List Char × List Char × Int),
        list.map (fun e => ((Split e ':')[0]?, (Split e ':')[1]?)) =
          toks.map (fun t => (some t.1, some t.2.1)) ∧
        al2.addrs = al.addrs ++ toks.map (fun t => HexToAddress t.1) ∧
        al2.minimums = al.minimums ++ toks.map (fun t => t.2.2) ∧
        ∀ t ∈ toks, IsHexAddress t.1 = true ∧ SetString t.2.1 = some t.2.2 := by
  induction list with
  | nil =>
    intro al al2 h
    simp only [setEntries, Prod.mk.injEq, and_true] at h
    subst h
    exact ⟨[], by simp⟩
  | cons e rest ih =>
    intro al al2 h
    unfold setEntries at h
    simp only at h
    cases h0 : (Split e ':')[0]? with
    | none => simp [h0] at h
    | some t0 =>
      simp only [h0] at h
      by_cases hv : IsHexAddress t0 = true
      · simp only [hv, Bool.not_true, Bool.false_eq_true, if_false] at h
        cases h1 : (Split e ':')[1]? with
        | none => simp [h1] at h
        | some t1 =>
          simp only [h1] at h
          cases hm : SetString t1 with
          | none => simp [hm] at h
          | some min =>
            simp only [hm] at h
            obtain ⟨toks, hmap, haddrs, hmins, hall⟩ := ih _ al2 h
            refine ⟨(t0, t1, min) :: toks, ?_, ?_, ?_, ?_⟩
            · simp [h0, h1, hmap]
            · simp [haddrs]
            · simp [hmins]
            · intro t ht
              rcases List.mem_cons.1 ht with heq | hmem
              · subst heq
                exact ⟨hv, hm⟩
              · exact hall t hmem
      · simp [hv] at h

/-! ## The refresh cycle -/

/-- C1: in one `updateBalances` cycle, a tracked address whose fetch succeeds with value
`b` ends with balance `b`, its minimum untouched, and `healthy` equal to `b > minimum`
(strictly); in particular a balance equal to the minimum is unhealthy. -/
theorem updateBalances_success (oracle : Oracle) (order : List Address) (app : Monitor)
    (addr : Address) (acct : Account) (b : Int)
    (horder : order.Perm app.accts.keys)
    (htracked : app.accts.get addr = some acct)
    (hfetch : oracle addr = some b) :
    (updateBalances oracle order app).accts.get addr =
        some { balance := b, minimumBalance := acct.minimumBalance,
               healthy := decide (b > acct.minimumBalance) } ∧
      (b = acct.minimumBalance →
        ((updateBalances oracle order app).accts.get addr).map Account.healthy = some false) := by
  have hget := updateBalances_get oracle order app horder addr
  rw [htracked] at hget
  simp only [Option.map, refresh, hfetch, updateAccount_eq] at hget
  refine ⟨hget, ?_⟩
  intro hb
  rw [hget, hb]
  simp

theorem updateBalances_success_witness :
    [addrTwo, addrOne].Perm sampleApp.accts.keys ∧
      sampleApp.accts.get addrOne = some { balance := 0, minimumBalance := 100, healthy := true } ∧
      sampleOracle addrOne = some 100 ∧
      ((updateBalances sampleOracle [addrTwo, addrOne] sampleApp).accts.get addrOne =
          some { balance := 100, minimumBalance := 100, healthy := decide ((100 : Int) > 100) } ∧
        ((100 : Int) = 100 →
          ((updateBalances sampleOracle [addrTwo, addrOne] sampleApp).accts.get addrOne).map
            Account.healthy = some false)) :=
  ⟨by decide, by decide, by decide,
    updateBalances_success sampleOracle [addrTwo, addrOne] sampleApp addrOne
      { balance := 0, minimumBalance := 100, healthy := true } 100
      (by decide) (by decide) (by decide)⟩

/-- C2: in one `updateBalances` cycle, an address whose fetch failed keeps the account it
had before the cycle, and the account an address ends with depends only on the
outcome of its own fetch: under any other oracle with the same outcome for that
address (for instance one where no other fetch fails), and any visiting order, it
ends in the same state. -/
theorem updateBalances_failure_isolated (oracle : Oracle) (order : List Address) (app : Monitor)
    (horder : order.Perm app.accts.keys) :
    (∀ addr, oracle addr = none →
        (updateBalances oracle order app).accts.get addr = app.accts.get addr) ∧
      (∀ (oracle2 : Oracle) (order2 : List Address) (addr : Address),
        order2.Perm app.accts.keys → oracle2 addr = oracle addr →
        (updateBalances oracle order app).accts.get addr =
          (updateBalances oracle2 order2 app).accts.get addr) := by
  constructor
  · intro addr hfail
    rw [updateBalances_get oracle order app horder addr]
    cases app.accts.get addr <;> simp [refresh, hfail]
  · intro oracle2 order2 addr horder2 hsame
    rw [updateBalances_get oracle order app horder addr,
      updateBalances_get oracle2 order2 app horder2 addr]
    cases app.accts.get addr <;> simp [refresh, hsame]

theorem updateBalances_failure_isolated_witness :
    [addrOne, addrTwo].Perm sampleApp.accts.keys ∧
      ((∀ addr, sampleOracle addr = none →
          (updateBalances sampleOracle [addrOne, addrTwo] sampleApp).accts.get addr =
            sampleApp.accts.get addr) ∧
        (∀ (oracle2 : Oracle) (order2 : List Address) (addr : Address),
          order2.Perm sampleApp.accts.keys → oracle2 addr = sampleOracle addr →
          (updateBalances sampleOracle [addrOne, addrTwo] sampleApp).accts.get addr =
            (updateBalances oracle2 order2 sampleApp).accts.get addr)) :=
  ⟨by decide,
    updateBalances_failure_isolated sampleOracle [addrOne, addrTwo] sampleApp (by decide)⟩

/-- C6: an `updateBalances` cycle, whatever the oracle and the visiting order, leaves the
keys of the map as they were, keeps every account's `minimumBalance`, and leaves the
other fields of the monitor alone; only `balance` and `healthy` can differ. -/
theorem updateBalances_frame (oracle : Oracle) (order : List Address) (app : Monitor) :
    (updateBalances oracle order app).accts.keys = app.accts.keys ∧
      (∀ addr, ((updateBalances oracle order app).accts.get addr).map Account.minimumBalance =
        (app.accts.get addr).map Account.minimumBalance) ∧
      (updateBalances oracle order app).ethUrl = app.ethUrl ∧
      (updateBalances oracle order app).updateInterval = app.updateInterval ∧
      (updateBalances oracle order app).httpPort = app.httpPort := by
  refine ⟨foldl_visit_keys oracle order app.accts, ?_, rfl, rfl, rfl⟩
  intro addr
  simp only [updateBalances, foldl_visit_get]
  by_cases hm : addr ∈ order
  · cases app.accts.get addr <;> simp [hm, refresh_minimum]
  · simp [hm]

/-! ## Construction and reachable states -/

/-- C7: for lists of addresses and minimums of the same length, `NewMonitor` returns a
monitor whose map tracks exactly the listed addresses, where every account has
balance 0 and `healthy = true`, and where the account of an address carries the
minimum at the index of the last occurrence of that address in the list. -/
theorem NewMonitor_spec (url : List Char) (port : Nat) (accounts : List Address)
    (minimums : List Int) (updateInterval : Int)
    (hlen : accounts.length = minimums.length) :
    ∃ app, NewMonitor url port accounts minimums updateInterval = some app ∧
      (∀ a, (app.accts.get a).isSome = true ↔ a ∈ accounts) ∧
      (∀ a acct, app.accts.get a = some acct → acct.balance = 0 ∧ acct.healthy = true) ∧
      (∀ (k : Nat) a m, accounts[k]? = some a → minimums[k]? = some m →
        (∀ j : Nat, k < j → accounts[j]? ≠ some a) →
        app.accts.get a = some { balance := 0, minimumBalance := m, healthy := true }) :=
  newMonitor_accts url port accounts minimums updateInterval hlen

theorem NewMonitor_spec_witness :
    [addrOne, addrTwo, addrOne].length = [(100 : Int), 5, 7].length ∧
      ∃ app, NewMonitor [] 8080 [addrOne, addrTwo, addrOne] [100, 5, 7] 60 = some app ∧
        (∀ a, (app.accts.get a).isSome = true ↔ a ∈ [addrOne, addrTwo, addrOne]) ∧
        (∀ a acct, app.accts.get a = some acct → acct.balance = 0 ∧ acct.healthy = true) ∧
        (∀ (k : Nat) a m, [addrOne, addrTwo, addrOne][k]? = some a →
          [(100 : Int), 5, 7][k]? = some m →
          (∀ j : Nat, k < j → [addrOne, addrTwo, addrOne][j]? ≠ some a) →
          app.accts.get a = some { balance := 0, minimumBalance := m, healthy := true }) :=
  ⟨by decide, NewMonitor_spec [] 8080 [addrOne, addrTwo, addrOne] [100, 5, 7] 60 (by decide)⟩

/-- C5 as stated fails: the monitor `NewMonitor` builds for `addrOne` with minimum 100
holds balance 0 with `healthy = true`, both at once and after a cycle whose fetch
fails, although `0 > 100` is false. -/
theorem initial_state_not_consistent :
    ∃ app, NewMonitor [] 8080 [addrOne] [100] 60 = some app ∧
      (∃ acct, (runCycles [] app).accts.get addrOne = some acct ∧ ¬ Consistent acct) ∧
      (∃ acct, (runCycles [(fun _ => none, [addrOne])] app).accts.get addrOne = some acct ∧
        ¬ Consistent acct) := by
  refine ⟨_, rfl, ⟨{ balance := 0, minimumBalance := 100, healthy := true }, by decide, ?_⟩,
    ⟨{ balance := 0, minimumBalance := 100, healthy := true }, by decide, ?_⟩⟩ <;>
  simp [Consistent]

/-- C5, amended: in every state reached from the monitor built by `NewMonitor` through
any number of `updateBalances` cycles, an account for which some cycle's fetch
succeeded satisfies `healthy = (balance > minimumBalance)`, and an account for which
every fetch so far failed (or no cycle ran) still has balance 0 and `healthy = true`. -/
theorem reachable_health (url : List Char) (port : Nat) (accounts : List Address)
    (minimums : List Int) (updateInterval : Int) (app0 : Monitor)
    (cycles : List (Oracle × List Address)) (addr : Address) (acct : Account)
    (hnew : NewMonitor url port accounts minimums updateInterval = some app0)
    (hlen : accounts.length = minimums.length)
    (hcycles : ∀ c ∈ cycles, c.2.Perm app0.accts.keys)
    (hget : (runCycles cycles app0).accts.get addr = some acct) :
    ((∃ c ∈ cycles, (c.1 addr).isSome = true) → Consistent acct) ∧
      ((∀ c ∈ cycles, c.1 addr = none) → acct.balance = 0 ∧ acct.healthy = true) := by
  obtain ⟨app, happ, _, hinit, _⟩ :=
    newMonitor_accts url port accounts minimums updateInterval hlen
  rw [hnew] at happ
  simp only [Option.some.injEq] at happ
  subst happ
  rw [runCycles_get cycles app0 hcycles addr] at hget
  cases h0 : app0.accts.get addr with
  | none => simp [h0] at hget
  | some acct0 =>
    simp only [h0, Option.map, Option.some.injEq] at hget
    subst hget
    constructor
    · intro hsome
      exact foldl_refresh_consistent cycles addr acct0 (Or.inr hsome)
    · intro hnone
      rw [foldl_refresh_unchanged cycles addr acct0 hnone]
      exact hinit addr acct0 h0

theorem reachable_health_witness :
    NewMonitor "http://localhost:8545".toList 8080 [addrOne, addrTwo] [100, 5] 60 =
        some sampleApp ∧
      [addrOne, addrTwo].length = [(100 : Int), 5].length ∧
      (∀ c ∈ [(sampleOracle, [addrTwo, addrOne]), (sampleOracleAllOk, [addrOne, addrTwo])],
        c.2.Perm sampleApp.accts.keys) ∧
      (runCycles [(sampleOracle, [addrTwo, addrOne]), (sampleOracleAllOk, [addrOne, addrTwo])]
          sampleApp).accts.get addrTwo =
        some { balance := 7, minimumBalance := 5, healthy := true } ∧
      (((∃ c ∈ [(sampleOracle, [addrTwo, addrOne]), (sampleOracleAllOk, [addrOne, addrTwo])],
          (c.1 addrTwo).isSome = true) →
          Consistent { balance := 7, minimumBalance := 5, healthy := true }) ∧
        ((∀ c ∈ [(sampleOracle, [addrTwo, addrOne]), (sampleOracleAllOk, [addrOne, addrTwo])],
          c.1 addrTwo = none) →
          ({ balance := 7, minimumBalance := 5, healthy := true } : Account).balance = 0 ∧
            ({ balance := 7, minimumBalance := 5, healthy := true } : Account).healthy = true)) :=
  ⟨by decide, by decide, by decide, by decide,
    reachable_health "http://localhost:8545".toList 8080 [addrOne, addrTwo] [100, 5] 60 sampleApp
      [(sampleOracle, [addrTwo, addrOne]), (sampleOracleAllOk, [addrOne, addrTwo])] addrTwo
      { balance := 7, minimumBalance := 5, healthy := true }
      (by decide) (by decide) (by decide) (by decide)⟩

/-! ## The status server -/

/-- C3: for a request whose address is syntactically valid and tracked,
`handleBalanceRequest` makes exactly two calls: `WriteHeader(200)` when the account is
healthy and `WriteHeader(500)` when it is not, then one write of the text of
`balance.String()`. So the status is 200 or 500 and the body is exactly the decimal
text of the balance, text which `SetString` reads back as the balance. -/
theorem handleBalanceRequest_tracked (app : Monitor) (url : List Char) (info : Account)
    (hvalid : IsHexAddress (Base url) = true)
    (htracked : app.accts.get (HexToAddress (Base url)) = some info) :
    handleBalanceRequest app url =
        [Call.WriteHeader (if info.healthy then 200 else 500),
         Call.WriteString (bigString info.balance)] ∧
      statusOf (handleBalanceRequest app url) = some (if info.healthy then 200 else 500) ∧
      bodyOf (handleBalanceRequest app url) = bigString info.balance ∧
      SetString (bodyOf (handleBalanceRequest app url)) = some info.balance := by
  have hcalls : handleBalanceRequest app url =
      [Call.WriteHeader (if info.healthy then 200 else 500),
       Call.WriteString (bigString info.balance)] := by
    simp [handleBalanceRequest, hvalid, htracked]
  rw [hcalls]
  refine ⟨rfl, rfl, by simp [bodyOf], ?_⟩
  simp only [bodyOf, List.append_nil]
  exact SetString_bigString info.balance

theorem handleBalanceRequest_tracked_witness :
    IsHexAddress (Base "/balances/0x0000000000000000000000000000000000000002".toList) = true ∧
      sampleApp.accts.get
          (HexToAddress (Base "/balances/0x0000000000000000000000000000000000000002".toList)) =
        some { balance := 0, minimumBalance := 5, healthy := true } ∧
      handleBalanceRequest sampleApp
          "/balances/0x0000000000000000000000000000000000000002".toList =
        [Call.WriteHeader 200, Call.WriteString "0".toList] :=
  ⟨by decide, by decide,
    (handleBalanceRequest_tracked sampleApp
      "/balances/0x0000000000000000000000000000000000000002".toList
      { balance := 0, minimumBalance := 5, healthy := true } (by decide) (by decide)).1⟩

/-- C4 at a failing input: the request `/balances/0x1` names the text `0x1`, which is not a
valid hex address, yet `HexToAddress` reads it as `0x00…01`. With that address tracked
(balance 0, healthy, as `NewMonitor` leaves it), `handleBalanceRequest` writes 404 and `invalid address` and then
goes on to call `WriteHeader(200)` and to write the balance: the body is
`invalid address0`, not `invalid address`. -/
theorem handleBalanceRequest_invalid_falls_through :
    NewMonitor "http://localhost:8545".toList 8080 [addrOne, addrTwo] [100, 5] 60 =
        some sampleApp ∧
      IsHexAddress (Base "/balances/0x1".toList) = false ∧
      handleBalanceRequest sampleApp "/balances/0x1".toList =
        [Call.WriteHeader 404, Call.WriteString "invalid address".toList,
         Call.WriteHeader 200, Call.WriteString "0".toList] ∧
      statusOf (handleBalanceRequest sampleApp "/balances/0x1".toList) = some 404 ∧
      bodyOf (handleBalanceRequest sampleApp "/balances/0x1".toList) =
        "invalid address0".toList ∧
      bodyOf (handleBalanceRequest sampleApp "/balances/0x1".toList) ≠
        "invalid address".toList := by
  decide

/-- C9: for a request whose address is syntactically valid but not tracked,
`handleBalanceRequest` makes no call on the response writer: no status code and no
body are written. -/
theorem handleBalanceRequest_untracked (app : Monitor) (url : List Char)
    (hvalid : IsHexAddress (Base url) = true)
    (huntracked : app.accts.get (HexToAddress (Base url)) = none) :
    handleBalanceRequest app url = [] ∧
      statusOf (handleBalanceRequest app url) = none ∧
      bodyOf (handleBalanceRequest app url) = [] := by
  have hcalls : handleBalanceRequest app url = [] := by
    simp [handleBalanceRequest, hvalid, huntracked]
  rw [hcalls]
  exact ⟨rfl, rfl, rfl⟩

theorem handleBalanceRequest_untracked_witness :
    IsHexAddress (Base "/balances/0x00000000000000000000000000000000000000ff".toList) = true ∧
      sampleApp.accts.get
          (HexToAddress (Base "/balances/0x00000000000000000000000000000000000000ff".toList)) =
        none ∧
      (handleBalanceRequest sampleApp
          "/balances/0x00000000000000000000000000000000000000ff".toList = [] ∧
        statusOf (handleBalanceRequest sampleApp
          "/balances/0x00000000000000000000000000000000000000ff".toList) = none ∧
        bodyOf (handleBalanceRequest sampleApp
          "/balances/0x00000000000000000000000000000000000000ff".toList) = []) :=
  ⟨by decide, by decide,
    handleBalanceRequest_untracked sampleApp
      "/balances/0x00000000000000000000000000000000000000ff".toList (by decide) (by decide)⟩

/-! ## Parsing the account list -/

/-- C8 as stated fails: `Set` returns no error for `0x00…01:-5` and appends the
minimum `-5`, which is negative. -/
theorem Set_accepts_negative_minimum :
    accountList.Set { addrs := [], minimums := [] }
        "0x0000000000000000000000000000000000000001:-5".toList =
      ({ addrs := [addrOne], minimums := [-5] }, SetOutcome.returnsNil) ∧
    ¬ (∀ m ∈ [(-5 : Int)], 0 ≤ m) := by
  decide

/-- C8, amended: when `accountList.Set` returns no error, every comma-separated entry of
the input gave one pair of tokens (the texts before and after its first `:`), the
addresses appended are `HexToAddress` of the first tokens, each of which is a
syntactically valid hex address, the minimums appended are integers, negative when
the token starts with `-`, each equal to the signed base-10 value of its second
token, and as many minimums as addresses were appended, so lists of equal length
stay of equal length. -/
theorem Set_ok (al al2 : accountList) (value : List Char)
    (h : accountList.Set al value = (al2, SetOutcome.returnsNil)) :
    ∃ toks : List (List Char × List Char × Int),
      (Split value ',').map (fun e => ((Split e ':')[0]?, (Split e ':')[1]?)) =
        toks.map (fun t => (some t.1, some t.2.1)) ∧
      al2.addrs = al.addrs ++ toks.map (fun t => HexToAddress t.1) ∧
      al2.minimums = al.minimums ++ toks.map (fun t => t.2.2) ∧
      (∀ t ∈ toks, IsHexAddress t.1 = true ∧ DecimalValue t.2.1 t.2.2) ∧
      (al.addrs.length = al.minimums.length → al2.addrs.length = al2.minimums.length) := by
  obtain ⟨toks, hmap, haddrs, hmins, hall⟩ := setEntries_ok (Split value ',') al al2 h
  refine ⟨toks, hmap, haddrs, hmins, ?_, ?_⟩
  · intro t ht
    exact ⟨(hall t ht).1, SetString_value _ _ (hall t ht).2⟩
  · intro hlen
    rw [haddrs, hmins]
    simp [hlen]

theorem Set_ok_witness :
    accountList.Set { addrs := [], minimums := [] }
        "0x0000000000000000000000000000000000000001:100,0x0000000000000000000000000000000000000002:5".toList =
      ({ addrs := [addrOne, addrTwo], minimums := [100, 5] }, SetOutcome.returnsNil) ∧
    ∃ toks : List (List Char × List Char × Int),
      (Split "0x0000000000000000000000000000000000000001:100,0x0000000000000000000000000000000000000002:5".toList
          ',').map (fun e => ((Split e ':')[0]?, (Split e ':')[1]?)) =
        toks.map (fun t => (some t.1, some t.2.1)) ∧
      [addrOne, addrTwo] = [] ++ toks.map (fun t => HexToAddress t.1) ∧
      [(100 : Int), 5] = [] ++ toks.map (fun t => t.2.2) ∧
      (∀ t ∈ toks, IsHexAddress t.1 = true ∧ DecimalValue t.2.1 t.2.2) ∧
      (([] : List Address).length = ([] : List Int).length →
        [addrOne, addrTwo].length = [(100 : Int), 5].length) :=
  ⟨by decide,
    Set_ok { addrs := [], minimums := [] } { addrs := [addrOne, addrTwo], minimums := [100, 5] }
      "0x0000000000000000000000000000000000000001:100,0x0000000000000000000000000000000000000002:5".toList
      (by decide)⟩

/-- C10 at a failing input: for an entry that is a valid address with no `:` after it,
`Split` gives a single token and `accountList.Set` stops at `tokens[1]` with
`index out of range [1] with length 1`; it returns neither `nil` nor an error. -/
theorem Set_missing_separator_index_out_of_range :
    Split "0x0000000000000000000000000000000000000001".toList ':' =
        ["0x0000000000000000000000000000000000000001".toList] ∧
      accountList.Set { addrs := [], minimums := [] }
          "0x0000000000000000000000000000000000000001".toList =
        ({ addrs := [], minimums := [] }, SetOutcome.indexOutOfRange 1 1) := by
  decide


end EthBalanceMonitor
